import Mathlib

/-!
Shallow embedding of the ArgParser C++ library (argument registry, token
dispatcher, typed value resolution, required-argument validation) and proofs
about its behaviour.

Conventions of the embedding:
* C++ std::string is modelled as Lean String; index arithmetic from the
  source (substr, find, length) is performed on the underlying character
  list, which coincides with the byte view on ASCII input.
* Exceptions are modelled as an explicit error type returned through Except;
  each error constructor carries the payload the C++ code formats into the
  exception message.
* The unordered_map from names to Argument pointers is modelled as an
  association list from names to indices into the declaration-ordered
  argument list; a later insertion under the same key shadows the earlier
  one, which matches the overwrite semantics of operator[].
* printHelp followed by std::exit(0) is modelled as a dedicated helpStop /
  helpExit outcome of the parse.
-/

namespace argparser

/-- Kinds of declared arguments, mirroring enum class ArgumentType. -/
inductive ArgumentType
  | Flag
  | Option
  | Positional
deriving DecidableEq, Repr

/-- Error kinds of the library, mirroring the exception classes in
Exceptions.hpp.  Each constructor carries the string payload that the C++
exception message is built from. -/
inductive ArgError
  | argumentError (msg : String)
  | parseError (msg : String)
  | validationError (msg : String)
  | missingArgumentError (name : String)
  | unknownArgumentError (token : String)
deriving DecidableEq, Repr

/-- One declared argument: declaration data plus mutable parse state,
mirroring class Argument (part_000).  The validator is an optional
predicate on the candidate value, as in C++. -/
structure Argument where
  shortName : String
  longName : String
  name : String
  description : String
  defaultValue : String
  currentValue : String
  type : ArgumentType
  isRequired : Bool
  isSet : Bool
  validator : Option (String → Bool)

/-- Argument(shortName, longName, description): the Flag constructor. -/
def Argument.mkFlag (shortName longName description : String) : Argument :=
  { shortName, longName, name := "", description, defaultValue := "",
    currentValue := "", type := ArgumentType.Flag, isRequired := false,
    isSet := false, validator := none }

/-- Argument(shortName, longName, description, defaultValue): the Option
constructor. -/
def Argument.mkOption (shortName longName description defaultValue : String) :
    Argument :=
  { shortName, longName, name := "", description, defaultValue,
    currentValue := "", type := ArgumentType.Option, isRequired := false,
    isSet := false, validator := none }

/-- Argument(name, description, required): the Positional constructor. -/
def Argument.mkPositional (name description : String) (required : Bool) :
    Argument :=
  { shortName := "", longName := "", name, description, defaultValue := "",
    currentValue := "", type := ArgumentType.Positional,
    isRequired := required, isSet := false, validator := none }

/-- Argument::required(bool): fluent setter for the required bit. -/
def Argument.required (a : Argument) (isRequired : Bool) : Argument :=
  { a with isRequired := isRequired }

/-- Argument::defaultValue(string_view): fluent setter for the default. -/
def Argument.withDefault (a : Argument) (value : String) : Argument :=
  { a with defaultValue := value }

/-- Argument::validator(func): fluent setter for the validator. -/
def Argument.withValidator (a : Argument) (f : String → Bool) : Argument :=
  { a with validator := some f }

/-- Argument::setValue: rejects flags, consults the validator, then stores
the value and marks the argument set.  The thrown ValidationError of the
C++ code becomes an error result. -/
def Argument.setValue (a : Argument) (value : String) :
    Except ArgError Argument :=
  if a.type = ArgumentType.Flag then
    .error (.validationError "Cannot set value for flag argument")
  else
    match a.validator with
    | some f =>
        if f value = false then
          .error (.validationError ("Invalid value for argument:" ++ value))
        else
          .ok { a with currentValue := value, isSet := true }
    | none => .ok { a with currentValue := value, isSet := true }

/-- Argument::setFlag: rejects non-flags, then records the given bit as
the set state. -/
def Argument.setFlag (a : Argument) (value : Bool) : Except ArgError Argument :=
  if a.type ≠ ArgumentType.Flag then
    .error (.validationError "Cannot set flag for non-flag argument")
  else
    .ok { a with isSet := value }

/-- Argument::validate: true when no validator is attached, else the
verdict of the validator. -/
def Argument.validate (a : Argument) (value : String) : Bool :=
  match a.validator with
  | none => true
  | some f => f value

/-- The string a typed getter resolves, from Argument::get:
currentValue when set, else defaultValue. -/
def Argument.activeValue (a : Argument) : String :=
  if a.isSet then a.currentValue else a.defaultValue

/-- Whitespace test of the C locale isspace, used by std::stoi / std::stod
before the number proper. -/
def isSpaceChar (c : Char) : Bool :=
  c = ' ' || c = '\t' || c = '\n' || c = '\x0b' || c = '\x0c' || c = '\r'

/-- ASCII decimal digit test. -/
def isAsciiDigit (c : Char) : Bool :=
  '0' ≤ c && c ≤ '9'

/-- Value of a list of ASCII decimal digits, most significant first. -/
def digitsToNat (ds : List Char) : Nat :=
  ds.foldl (fun acc c => acc * 10 + (c.toNat - 48)) 0

/-- Model of std::stoi (base 10): skip whitespace, optional sign, a
non-empty maximal run of decimal digits; trailing characters are ignored.
Produces none where the C++ call throws (no digits, or the value falls
outside the int range) so that the catch-all in Argument::get maps both
to an absent result. -/
def stoi (s : String) : Option Int :=
  let cs := s.data.dropWhile isSpaceChar
  let signed : Bool × List Char :=
    match cs with
    | '-' :: t => (true, t)
    | '+' :: t => (false, t)
    | _ => (false, cs)
  let ds := signed.2.takeWhile isAsciiDigit
  if ds = [] then none
  else
    let mag : Int := Int.ofNat (digitsToNat ds)
    let v : Int := if signed.1 then -mag else mag
    if v < -2147483648 ∨ 2147483647 < v then none else some v

/-- Abstract value of a parsed double: a finite rational, an infinity, or
a NaN.  Rounding to binary floating point is not modelled; the claims
depend only on parse success and on exactly representable values. -/
inductive DoubleVal
  | finite (q : ℚ)
  | inf (neg : Bool)
  | nan (neg : Bool)
deriving DecidableEq, Repr

/-- Model of std::stod in the C locale: skip whitespace, optional sign,
then either inf / nan (case-insensitive) or a decimal mantissa (digits,
optionally with a fractional part) with an optional exponent; trailing
characters are ignored.  Produces none where the C++ call throws on input
with no parsable number.  The finite value sign times (intPart plus
fracPart over ten to the fraction length) times ten to the exponent is
built as one exact rational, scaling the digit run of intPart and fracPart
by ten to the signed exponent minus the fraction length.  Hexadecimal
floating forms and the double range check are not modelled. -/
def stod (s : String) : Option DoubleVal :=
  let cs := s.data.dropWhile isSpaceChar
  let signed : Bool × List Char :=
    match cs with
    | '-' :: t => (true, t)
    | '+' :: t => (false, t)
    | _ => (false, cs)
  let neg := signed.1
  let low := signed.2.map Char.toLower
  if List.isPrefixOf ['i', 'n', 'f'] low then some (.inf neg)
  else if List.isPrefixOf ['n', 'a', 'n'] low then some (.nan neg)
  else
    let intDs := signed.2.takeWhile isAsciiDigit
    let afterInt := signed.2.dropWhile isAsciiDigit
    let fracPair : List Char × List Char :=
      match afterInt with
      | '.' :: t => (t.takeWhile isAsciiDigit, t.dropWhile isAsciiDigit)
      | _ => ([], afterInt)
    let fracDs := fracPair.1
    if intDs = [] ∧ fracDs = [] then none
    else
      let expVal : Int :=
        match fracPair.2 with
        | e :: t =>
          if e = 'e' ∨ e = 'E' then
            let esigned : Bool × List Char :=
              match t with
              | '-' :: u => (true, u)
              | '+' :: u => (false, u)
              | _ => (false, t)
            let eds := esigned.2.takeWhile isAsciiDigit
            if eds = [] then 0
            else if esigned.1 then -(digitsToNat eds : Int) else (digitsToNat eds : Int)
          else 0
        | [] => 0
      let signedMant : Int :=
        if neg then -(digitsToNat (intDs ++ fracDs) : Int)
        else (digitsToNat (intDs ++ fracDs) : Int)
      let q : ℚ :=
        match expVal - (fracDs.length : Int) with
        | Int.ofNat k => mkRat (signedMant * ((10 ^ k : Nat) : Int)) 1
        | Int.negSucc k => mkRat signedMant (10 ^ (k + 1))
      some (.finite q)

/-- Argument::get specialised at std::string: absent when unset with an
empty default, otherwise the active string itself. -/
def Argument.getStringOpt (a : Argument) : Option String :=
  if !a.isSet && a.defaultValue.isEmpty then none
  else some a.activeValue

/-- Argument::get specialised at int: absent when unset with an empty
default, otherwise the stoi parse of the active string, with parse
failure mapped to an absent result by the catch-all. -/
def Argument.getIntOpt (a : Argument) : Option Int :=
  if !a.isSet && a.defaultValue.isEmpty then none
  else stoi a.activeValue

/-- Argument::get specialised at double: absent when unset with an empty
default, otherwise the stod parse of the active string, with parse
failure mapped to an absent result by the catch-all. -/
def Argument.getDoubleOpt (a : Argument) : Option DoubleVal :=
  if !a.isSet && a.defaultValue.isEmpty then none
  else stod a.activeValue

/-- Argument::get specialised at bool: absent when unset with an empty
default; for a Flag, the set state; otherwise true exactly when the
lowercased active string is one of true, 1, yes, on. -/
def Argument.getBoolOpt (a : Argument) : Option Bool :=
  if !a.isSet && a.defaultValue.isEmpty then none
  else if a.type = ArgumentType.Flag then some a.isSet
  else
    let lowerValue := String.mk (a.activeValue.data.map Char.toLower)
    some (lowerValue == "true" || lowerValue == "1" ||
          lowerValue == "yes" || lowerValue == "on")

/-- Argument::getString: empty string when the typed retrieval is absent. -/
def Argument.getString (a : Argument) : String :=
  match a.getStringOpt with
  | some v => v
  | none => ""

/-- Argument::getInt: raises ValidationError when the typed retrieval is
absent. -/
def Argument.getInt (a : Argument) : Except ArgError Int :=
  match a.getIntOpt with
  | some v => .ok v
  | none => .error (.validationError "Cannot convert value to int")

/-- Argument::getDouble: raises ValidationError when the typed retrieval
is absent. -/
def Argument.getDouble (a : Argument) : Except ArgError DoubleVal :=
  match a.getDoubleOpt with
  | some v => .ok v
  | none => .error (.validationError "Cannot convert value to double")

/-- Argument::getBool: false when the typed retrieval is absent. -/
def Argument.getBool (a : Argument) : Bool :=
  match a.getBoolOpt with
  | some v => v
  | none => false

/-- Parser state, mirroring the data members of class ArgParser that the
parsing core touches: the declaration-ordered owned arguments, the
name-to-argument lookup map (as name-to-index entries, most recent first),
and the collected positional token values.  Program name, description and
version feed only the excluded help formatting and are omitted. -/
structure ArgParser where
  arguments : List Argument
  argMap : List (String × Nat)
  positionalValues : List String

/-- A parser with nothing declared. -/
def ArgParser.empty : ArgParser :=
  { arguments := [], argMap := [], positionalValues := [] }

/-- ArgParser::findArgument, at the level of the index map: exact-match
lookup, most recent insertion first. -/
def ArgParser.findArgumentIdx (p : ArgParser) (name : String) : Option Nat :=
  (p.argMap.find? (fun kv => kv.1 == name)).map (fun kv => kv.2)

/-- ArgParser::findArgument: the Argument the map entry points at. -/
def ArgParser.findArgument (p : ArgParser) (name : String) : Option Argument :=
  (p.findArgumentIdx name).bind (fun i => p.arguments[i]?)

/-- Index-map insertion shared by the add functions: the new entry shadows
any earlier entry with the same key, like unordered_map operator[]. -/
def ArgParser.addKeys (p : ArgParser) (shortName longName : String) (i : Nat) :
    ArgParser :=
  let p1 := if shortName.isEmpty then p
            else { p with argMap := (shortName, i) :: p.argMap }
  if longName.isEmpty then p1
  else { p1 with argMap := (longName, i) :: p1.argMap }

/-- ArgParser::addFlag: append the new Flag argument and index it under
every non-empty name. -/
def ArgParser.addFlag (p : ArgParser) (shortName longName description : String) :
    ArgParser :=
  let i := p.arguments.length
  let p1 := { p with arguments := p.arguments ++ [Argument.mkFlag shortName longName description] }
  p1.addKeys shortName longName i

/-- ArgParser::addOption: append the new Option argument and index it
under every non-empty name. -/
def ArgParser.addOption (p : ArgParser)
    (shortName longName description defaultValue : String) : ArgParser :=
  let i := p.arguments.length
  let p1 := { p with arguments := p.arguments ++ [Argument.mkOption shortName longName description defaultValue] }
  p1.addKeys shortName longName i

/-- ArgParser::addPositional: append the new Positional argument and index
it under its name. -/
def ArgParser.addPositional (p : ArgParser) (name description : String)
    (required : Bool) : ArgParser :=
  let i := p.arguments.length
  let p1 := { p with arguments := p.arguments ++ [Argument.mkPositional name description required] }
  { p1 with argMap := (name, i) :: p1.argMap }

/-- Apply a fluent Argument configuration call to the most recently added
argument, modelling configuration through the reference returned by the
add functions. -/
def ArgParser.updateLast (p : ArgParser) (f : Argument → Argument) : ArgParser :=
  let lastArg : Argument :=
    match p.arguments.getLast? with
    | some a => f a
    | none => Argument.mkFlag "" "" ""
  { p with arguments := p.arguments.set (p.arguments.length - 1) lastArg }

/-- Position of the first occurrence of a character, modelling
std::string::find. -/
def charFindIdx : List Char → Char → Option Nat
  | [], _ => none
  | a :: rest, c =>
      if a = c then some 0 else (charFindIdx rest c).map (fun n => n + 1)

/-- ArgParser::parseShortOption.  The token arg is the current token; next?
is the following token when one remains.  On success the Bool records
whether that following token was consumed as the value (the iterator
advanced twice).  Errors carry the unchanged parser state, since the C++
code throws before any mutation. -/
def ArgParser.parseShortOption (p : ArgParser) (arg : String)
    (next? : Option String) : Except (ArgError × ArgParser) (ArgParser × Bool) :=
  let shortName := String.mk ((arg.data.drop 1).take 1)
  match p.findArgumentIdx shortName with
  | none => .error (.unknownArgumentError arg, p)
  | some i =>
    match p.arguments[i]? with
    | none => .error (.unknownArgumentError arg, p)
    | some a =>
      if a.type = ArgumentType.Flag then
        match a.setFlag true with
        | .error e => .error (e, p)
        | .ok a2 => .ok ({ p with arguments := p.arguments.set i a2 }, false)
      else
        if arg.data.length > 2 then
          match a.setValue (String.mk (arg.data.drop 2)) with
          | .error e => .error (e, p)
          | .ok a2 => .ok ({ p with arguments := p.arguments.set i a2 }, false)
        else
          match next? with
          | none => .error (.parseError ("Missing value for option: " ++ arg), p)
          | some v =>
            match a.setValue v with
            | .error e => .error (e, p)
            | .ok a2 => .ok ({ p with arguments := p.arguments.set i a2 }, true)

/-- ArgParser::parseLongOption.  The token is split at its first equals
sign; the part after the leading dashes and before the split is the long
name, the part after the split the inline value. -/
def ArgParser.parseLongOption (p : ArgParser) (arg : String)
    (next? : Option String) : Except (ArgError × ArgParser) (ArgParser × Bool) :=
  let eqPos? := charFindIdx arg.data '='
  let longName : String :=
    match eqPos? with
    | some e => String.mk ((arg.data.drop 2).take (e - 2))
    | none => String.mk (arg.data.drop 2)
  let value : String :=
    match eqPos? with
    | some e => String.mk (arg.data.drop (e + 1))
    | none => ""
  match p.findArgumentIdx longName with
  | none => .error (.unknownArgumentError arg, p)
  | some i =>
    match p.arguments[i]? with
    | none => .error (.unknownArgumentError arg, p)
    | some a =>
      if a.type = ArgumentType.Flag then
        if eqPos?.isSome then
          .error (.parseError ("Flag argument cannot have a value: " ++ arg), p)
        else
          match a.setFlag true with
          | .error e => .error (e, p)
          | .ok a2 => .ok ({ p with arguments := p.arguments.set i a2 }, false)
      else
        if eqPos?.isSome then
          match a.setValue value with
          | .error e => .error (e, p)
          | .ok a2 => .ok ({ p with arguments := p.arguments.set i a2 }, false)
        else
          match next? with
          | none => .error (.parseError ("Missing value for option: " ++ arg), p)
          | some v =>
            match a.setValue v with
            | .error e => .error (e, p)
            | .ok a2 => .ok ({ p with arguments := p.arguments.set i a2 }, true)

/-- Outcome of one iteration of the token loop. -/
inductive StepResult
  | next (p : ArgParser) (usedNext : Bool)
  | helpStop (p : ArgParser)
  | fail (e : ArgError) (p : ArgParser)

/-- One iteration of the while loop in ArgParser::parsePositionalOption:
help check first, then classification as long option, short option, or
positional token. -/
def ArgParser.step (p : ArgParser) (arg : String) (next? : Option String) :
    StepResult :=
  if arg = "--help" ∨ arg = "-h" then .helpStop p
  else if List.isPrefixOf ['-', '-'] arg.data then
    match p.parseLongOption arg next? with
    | .error (e, p2) => .fail e p2
    | .ok (p2, b) => .next p2 b
  else if List.isPrefixOf ['-'] arg.data ∧ arg.data.length > 1 then
    match p.parseShortOption arg next? with
    | .error (e, p2) => .fail e p2
    | .ok (p2, b) => .next p2 b
  else .next { p with positionalValues := p.positionalValues ++ [arg] } false

/-- Outcome of the whole token loop. -/
inductive LoopResult
  | done (p : ArgParser)
  | help (p : ArgParser)
  | err (e : ArgError) (p : ArgParser)

/-- The while loop of ArgParser::parsePositionalOption over the raw token
list.  A step that consumed the following token as a value advances past
it.  The empty fallback in the usedNext case is unreachable: a step only
reports usedNext when a following token existed. -/
def ArgParser.parseTokens (p : ArgParser) : List String → LoopResult
  | [] => .done p
  | arg :: rest =>
    match p.step arg rest.head? with
    | .helpStop p2 => .help p2
    | .fail e p2 => .err e p2
    | .next p2 usedNext =>
      if usedNext then
        match rest with
        | [] => .done p2
        | _ :: rest2 => ArgParser.parseTokens p2 rest2
      else ArgParser.parseTokens p2 rest

/-- The positional-binding loop after the token pass: walk the declared
arguments in order and give each Positional the next collected positional
value while values remain.  An error from a validator carries the
argument list with the mutations performed so far, as the C++ objects
keep them. -/
def assignPositionals : List Argument → List String →
    Except (ArgError × List Argument) (List Argument)
  | [], _ => .ok []
  | a :: rest, vals =>
    if a.type = ArgumentType.Positional then
      match vals with
      | [] =>
        match assignPositionals rest [] with
        | .ok rest2 => .ok (a :: rest2)
        | .error (e, rest2) => .error (e, a :: rest2)
      | v :: vs =>
        match a.setValue v with
        | .error e => .error (e, a :: rest)
        | .ok a2 =>
          match assignPositionals rest vs with
          | .ok rest2 => .ok (a2 :: rest2)
          | .error (e, rest2) => .error (e, a2 :: rest2)
    else
      match assignPositionals rest vals with
      | .ok rest2 => .ok (a :: rest2)
      | .error (e, rest2) => .error (e, a :: rest2)

/-- ArgParser::validateRequiredArgument: first declared argument that is
required but unset yields a MissingArgumentError, named by positional
name, else by the long name with a double dash when non-empty, else by
the short name with a dash. -/
def validateRequiredArgument : List Argument → Option ArgError
  | [] => none
  | a :: rest =>
    if a.isRequired && !a.isSet then
      some (.missingArgumentError
        (if a.type = ArgumentType.Positional then a.name
         else if a.longName.isEmpty then "-" ++ a.shortName
         else "--" ++ a.longName))
    else validateRequiredArgument rest

/-- Overall outcome of ArgParser::parsePositionalOption.  helpExit models
printHelp followed by process exit 0; error carries the parser state at
the moment the C++ exception is thrown. -/
inductive ParseResult
  | ok (p : ArgParser)
  | helpExit (p : ArgParser)
  | error (e : ArgError) (p : ArgParser)

/-- ArgParser::parsePositionalOption: the token loop, then positional
binding, then required-argument validation. -/
def ArgParser.parsePositionalOption (p : ArgParser) (args : List String) :
    ParseResult :=
  match p.parseTokens args with
  | .help p1 => .helpExit p1
  | .err e p1 => .error e p1
  | .done p1 =>
    match assignPositionals p1.arguments p1.positionalValues with
    | .error (e, argsNow) => .error e { p1 with arguments := argsNow }
    | .ok argsNow =>
      match validateRequiredArgument argsNow with
      | some e => .error e { p1 with arguments := argsNow }
      | none => .ok { p1 with arguments := argsNow }

/-- ArgParser::getString: empty string for an unknown name, else the
argument-level getString. -/
def ArgParser.getString (p : ArgParser) (name : String) : String :=
  match p.findArgument name with
  | none => ""
  | some a => a.getString

/-- ArgParser::getInt: ArgumentError for an unknown name, else the
argument-level getInt. -/
def ArgParser.getInt (p : ArgParser) (name : String) : Except ArgError Int :=
  match p.findArgument name with
  | none => .error (.argumentError ("Argument not found: " ++ name))
  | some a => a.getInt

/-- ArgParser::getDouble: ArgumentError for an unknown name, else the
argument-level getDouble. -/
def ArgParser.getDouble (p : ArgParser) (name : String) :
    Except ArgError DoubleVal :=
  match p.findArgument name with
  | none => .error (.argumentError ("Argument not found: " ++ name))
  | some a => a.getDouble

/-- ArgParser::getBool: false for an unknown name, else the set state of
the found argument (not its boolean conversion). -/
def ArgParser.getBool (p : ArgParser) (name : String) : Bool :=
  match p.findArgument name with
  | none => false
  | some a => a.isSet

/-- ArgParser::isSet: false for an unknown name, else the set state. -/
def ArgParser.isSetName (p : ArgParser) (name : String) : Bool :=
  match p.findArgument name with
  | none => false
  | some a => a.isSet

/-- ArgParser::positionalArguments: the raw collected positional values. -/
def ArgParser.positionalArguments (p : ArgParser) : List String :=
  p.positionalValues

/-! Section: Statement vocabulary -/

/-- The name by which validateRequiredArgument reports a required-but-unset
argument: the positional name, else the dashed long name when non-empty,
else the dashed short name. -/
def requiredErrorName (a : Argument) : String :=
  if a.type = ArgumentType.Positional then a.name
  else if a.longName.isEmpty then "-" ++ a.shortName
  else "--" ++ a.longName

/-- The effect a successful setValue has on an argument: store the value
and mark it set. -/
def bindValue (a : Argument) (v : String) : Argument :=
  { a with currentValue := v, isSet := true }

/-- The declared positional arguments, in declaration order. -/
def positionalsOf (args : List Argument) : List Argument :=
  args.filter (fun a => a.type == ArgumentType.Positional)

/-! Section: Claim C5: absent numeric retrieval versus thrown getInt/getDouble -/

/-- C5: for every Argument whose active string does not parse as a number,
the typed retrieval get at int returns an absent result and raises no
error, while getInt on that same Argument raises ValidationError; the
same asymmetry holds for double versus getDouble.  Absence of an error in
get is expressed by its Option result type. -/
theorem numeric_absent_vs_thrown (a : Argument)
    (hi : stoi a.activeValue = none) (hd : stod a.activeValue = none) :
    a.getIntOpt = none ∧
    a.getInt = Except.error (ArgError.validationError "Cannot convert value to int") ∧
    a.getDoubleOpt = none ∧
    a.getDouble = Except.error (ArgError.validationError "Cannot convert value to double") := by
  have h1 : a.getIntOpt = none := by
    unfold Argument.getIntOpt
    split
    · rfl
    · exact hi
  have h2 : a.getDoubleOpt = none := by
    unfold Argument.getDoubleOpt
    split
    · rfl
    · exact hd
  refine ⟨h1, ?_, h2, ?_⟩
  · unfold Argument.getInt
    rw [h1]
  · unfold Argument.getDouble
    rw [h2]

/-- A set Option argument holding the non-numeric string abc. -/
def c5Arg : Argument :=
  { shortName := "o", longName := "output", name := "", description := "",
    defaultValue := "", currentValue := "abc", type := ArgumentType.Option,
    isRequired := false, isSet := true, validator := none }

/-- Witness for C5 at the concrete non-numeric active string abc. -/
theorem numeric_absent_vs_thrown_witness :
    c5Arg.getIntOpt = none ∧
    c5Arg.getInt = Except.error (ArgError.validationError "Cannot convert value to int") ∧
    c5Arg.getDoubleOpt = none ∧
    c5Arg.getDouble = Except.error (ArgError.validationError "Cannot convert value to double") :=
  numeric_absent_vs_thrown c5Arg (by decide) (by decide)

/-! Section: Claim C6: default value fallback for typed retrieval -/

/-- C6: for every Option argument that has a default value and was never
set, typed retrieval resolves the default string: get at string returns
it, get at int and double return its numeric parse, and in particular a
default of 8080 yields the int 8080. -/
theorem default_fallback_typed (a : Argument) (hset : a.isSet = false)
    (hdef : a.defaultValue ≠ "") (_hty : a.type = ArgumentType.Option) :
    a.getStringOpt = some a.defaultValue ∧
    a.getIntOpt = stoi a.defaultValue ∧
    a.getDoubleOpt = stod a.defaultValue ∧
    (a.defaultValue = "8080" → a.getIntOpt = some 8080) := by
  have hactive : a.activeValue = a.defaultValue := by
    unfold Argument.activeValue
    rw [hset]
    simp
  have hcond : (!a.isSet && a.defaultValue.isEmpty) = false := by
    have hne : ¬(a.defaultValue.isEmpty = true) := by
      rw [String.isEmpty_iff]
      exact hdef
    rw [hset]
    simp [hne]
  have hs : a.getStringOpt = some a.defaultValue := by
    unfold Argument.getStringOpt
    rw [hcond, hactive]
    simp
  have hi : a.getIntOpt = stoi a.defaultValue := by
    unfold Argument.getIntOpt
    rw [hcond, hactive]
    simp
  have hdd : a.getDoubleOpt = stod a.defaultValue := by
    unfold Argument.getDoubleOpt
    rw [hcond, hactive]
    simp
  refine ⟨hs, hi, hdd, ?_⟩
  intro h8080
  rw [hi, h8080]
  decide

/-- An Option argument declared with default 8080 and never set. -/
def c6Arg : Argument := Argument.mkOption "p" "port" "Server port" "8080"

/-- Witness for C6 at the concrete default 8080. -/
theorem default_fallback_typed_witness :
    c6Arg.getStringOpt = some "8080" ∧
    c6Arg.getIntOpt = some 8080 ∧
    c6Arg.getDoubleOpt = some (DoubleVal.finite 8080) := by
  have h := default_fallback_typed c6Arg rfl (by decide) rfl
  refine ⟨h.1, h.2.2.2 rfl, ?_⟩
  rw [h.2.2.1]
  decide

/-! Section: Claim C3: required-argument validation is fail-fast in declaration
order -/

/-- C3: validateRequiredArgument reports exactly the first declared
argument that is required but unset, as a MissingArgumentError named by
the positional name or the dashed long or short name, and succeeds when
there is none; moreover the validation pass runs on the bound state after
an error-free token pass and positional binding, deciding the overall
parse outcome. -/
theorem validateRequired_first_violation :
    (∀ args : List Argument,
      validateRequiredArgument args =
        (args.find? (fun a => a.isRequired && !a.isSet)).map
          (fun a => ArgError.missingArgumentError (requiredErrorName a))) ∧
    (∀ (p : ArgParser) (toks : List String) (p1 : ArgParser)
        (args2 : List Argument),
      p.parseTokens toks = LoopResult.done p1 →
      assignPositionals p1.arguments p1.positionalValues = Except.ok args2 →
      p.parsePositionalOption toks =
        (match validateRequiredArgument args2 with
         | some e => ParseResult.error e { p1 with arguments := args2 }
         | none => ParseResult.ok { p1 with arguments := args2 })) := by
  constructor
  · intro args
    induction args with
    | nil => rfl
    | cons a rest ih =>
      cases h : (a.isRequired && !a.isSet) with
      | true =>
        simp [validateRequiredArgument, List.find?_cons, h, requiredErrorName]
      | false =>
        simp [validateRequiredArgument, List.find?_cons, h, ih]
  · intro p toks p1 args2 h1 h2
    unfold ArgParser.parsePositionalOption
    simp only [h1, h2]

/-- A parser with a single required positional named input. -/
def c3Parser : ArgParser := ArgParser.empty.addPositional "input" "Input file" true

/-- Witness for C3: with no tokens, the required positional input is
reported missing by name. -/
theorem validateRequired_first_violation_witness :
    validateRequiredArgument c3Parser.arguments =
      some (ArgError.missingArgumentError "input") ∧
    c3Parser.parsePositionalOption [] =
      ParseResult.error (ArgError.missingArgumentError "input")
        { c3Parser with arguments := c3Parser.arguments } := by
  constructor
  · rw [(validateRequired_first_violation).1 c3Parser.arguments]
    rfl
  · have h := (validateRequired_first_violation).2 c3Parser [] c3Parser
      c3Parser.arguments rfl rfl
    exact h

/-! Section: Structural lemmas about the token loop -/

/-- A failing long-option step leaves the parser unchanged: every throw in
parseLongOption happens before any mutation. -/
theorem parseLongOption_error_state {p : ArgParser} {arg : String}
    {nx : Option String} {e : ArgError} {p2 : ArgParser}
    (h : p.parseLongOption arg nx = Except.error (e, p2)) : p2 = p := by
  unfold ArgParser.parseLongOption at h
  simp only [] at h
  repeat' split at h
  all_goals simp_all

/-- A failing short-option step leaves the parser unchanged. -/
theorem parseShortOption_error_state {p : ArgParser} {arg : String}
    {nx : Option String} {e : ArgError} {p2 : ArgParser}
    (h : p.parseShortOption arg nx = Except.error (e, p2)) : p2 = p := by
  unfold ArgParser.parseShortOption at h
  simp only [] at h
  repeat' split at h
  all_goals simp_all

/-- A long-option step that did not consume the following token behaves
the same whatever that following token is. -/
theorem parseLongOption_ok_false_indep {p : ArgParser} {arg : String}
    {nx : Option String} {p2 : ArgParser}
    (h : p.parseLongOption arg nx = Except.ok (p2, false)) :
    ∀ nx2, p.parseLongOption arg nx2 = Except.ok (p2, false) := by
  intro nx2
  unfold ArgParser.parseLongOption at h ⊢
  simp only [] at h ⊢
  repeat' split at h
  all_goals simp_all

/-- A short-option step that did not consume the following token behaves
the same whatever that following token is. -/
theorem parseShortOption_ok_false_indep {p : ArgParser} {arg : String}
    {nx : Option String} {p2 : ArgParser}
    (h : p.parseShortOption arg nx = Except.ok (p2, false)) :
    ∀ nx2, p.parseShortOption arg nx2 = Except.ok (p2, false) := by
  intro nx2
  unfold ArgParser.parseShortOption at h ⊢
  simp only [] at h ⊢
  repeat' split at h
  all_goals simp_all

/-- A long-option step cannot report a consumed following token when
there is none. -/
theorem parseLongOption_none_not_true {p : ArgParser} {arg : String}
    {p2 : ArgParser}
    (h : p.parseLongOption arg none = Except.ok (p2, true)) : False := by
  unfold ArgParser.parseLongOption at h
  simp only [] at h
  repeat' split at h
  all_goals simp_all

/-- A short-option step cannot report a consumed following token when
there is none. -/
theorem parseShortOption_none_not_true {p : ArgParser} {arg : String}
    {p2 : ArgParser}
    (h : p.parseShortOption arg none = Except.ok (p2, true)) : False := by
  unfold ArgParser.parseShortOption at h
  simp only [] at h
  repeat' split at h
  all_goals simp_all

/-- A failing loop iteration leaves the parser unchanged. -/
theorem step_fail_state {p : ArgParser} {arg : String} {nx : Option String}
    {e : ArgError} {p2 : ArgParser}
    (h : p.step arg nx = StepResult.fail e p2) : p2 = p := by
  unfold ArgParser.step at h
  split at h
  · simp at h
  · split at h
    · cases hl : p.parseLongOption arg nx with
      | error ep =>
        obtain ⟨e1, p1⟩ := ep
        rw [hl] at h
        simp only [] at h
        cases h
        exact parseLongOption_error_state hl
      | ok pb =>
        obtain ⟨p1, b1⟩ := pb
        rw [hl] at h
        simp at h
    · split at h
      · cases hs : p.parseShortOption arg nx with
        | error ep =>
          obtain ⟨e1, p1⟩ := ep
          rw [hs] at h
          simp only [] at h
          cases h
          exact parseShortOption_error_state hs
        | ok pb =>
          obtain ⟨p1, b1⟩ := pb
          rw [hs] at h
          simp at h
      · simp at h

/-- A loop iteration that did not consume the following token behaves the
same whatever that following token is. -/
theorem step_next_false_indep {p : ArgParser} {arg : String}
    {nx : Option String} {p2 : ArgParser}
    (h : p.step arg nx = StepResult.next p2 false) :
    ∀ nx2, p.step arg nx2 = StepResult.next p2 false := by
  intro nx2
  unfold ArgParser.step at h ⊢
  split at h
  · simp at h
  · rename_i hHelp
    rw [if_neg hHelp]
    split at h
    · rename_i hPre
      rw [if_pos hPre]
      cases hl : p.parseLongOption arg nx with
      | error ep =>
        obtain ⟨e1, p1⟩ := ep
        rw [hl] at h
        simp at h
      | ok pb =>
        obtain ⟨p1, b1⟩ := pb
        rw [hl] at h
        simp only [] at h
        injection h with hp hb
        subst hp
        subst hb
        rw [parseLongOption_ok_false_indep hl nx2]
    · rename_i hPre
      rw [if_neg hPre]
      split at h
      · rename_i hPre2
        rw [if_pos hPre2]
        cases hs : p.parseShortOption arg nx with
        | error ep =>
          obtain ⟨e1, p1⟩ := ep
          rw [hs] at h
          simp at h
        | ok pb =>
          obtain ⟨p1, b1⟩ := pb
          rw [hs] at h
          simp only [] at h
          injection h with hp hb
          subst hp
          subst hb
          rw [parseShortOption_ok_false_indep hs nx2]
      · rename_i hPre2
        rw [if_neg hPre2]
        injection h with hp hb
        subst hp
        rfl

/-- A loop iteration at the last token cannot report a consumed
following token. -/
theorem step_none_not_true {p : ArgParser} {arg : String} {p2 : ArgParser}
    (h : p.step arg none = StepResult.next p2 true) : False := by
  unfold ArgParser.step at h
  split at h
  · simp at h
  · split at h
    · cases hl : p.parseLongOption arg none with
      | error ep =>
        obtain ⟨e1, p1⟩ := ep
        rw [hl] at h
        simp at h
      | ok pb =>
        obtain ⟨p1, b1⟩ := pb
        rw [hl] at h
        simp only [] at h
        injection h with hp hb
        subst hb
        exact parseLongOption_none_not_true hl
    · split at h
      · cases hs : p.parseShortOption arg none with
        | error ep =>
          obtain ⟨e1, p1⟩ := ep
          rw [hs] at h
          simp at h
        | ok pb =>
          obtain ⟨p1, b1⟩ := pb
          rw [hs] at h
          simp only [] at h
          injection h with hp hb
          subst hb
          exact parseShortOption_none_not_true hs
      · injection h with hp hb
        exact Bool.noConfusion hb

/-- Bounded-length form of loop composition: a token list the loop
finishes cleanly is processed the same way when more tokens follow, and
the loop then continues on the rest from the reached state. -/
theorem parseTokens_append_aux (more : List String) :
    ∀ (n : Nat) (pre : List String) (p p1 : ArgParser), pre.length ≤ n →
      p.parseTokens pre = LoopResult.done p1 →
      p.parseTokens (pre ++ more) = p1.parseTokens more := by
  intro n
  induction n with
  | zero =>
    intro pre p p1 hlen h
    have hpre : pre = [] := List.eq_nil_of_length_eq_zero (Nat.le_zero.mp hlen)
    subst hpre
    unfold ArgParser.parseTokens at h
    injection h with h2
    subst h2
    rfl
  | succ n ihn =>
    intro pre p p1 hlen h
    cases pre with
    | nil =>
      unfold ArgParser.parseTokens at h
      injection h with h2
      subst h2
      rfl
    | cons arg rest =>
      rw [ArgParser.parseTokens] at h
      rw [show (arg :: rest) ++ more = arg :: (rest ++ more) from rfl]
      rw [ArgParser.parseTokens]
      cases hstep : p.step arg rest.head? with
      | helpStop p2 =>
        rw [hstep] at h
        simp at h
      | fail e p2 =>
        rw [hstep] at h
        simp at h
      | next p2 b =>
        rw [hstep] at h
        simp only [] at h
        cases b with
        | false =>
          have h2 : p2.parseTokens rest = LoopResult.done p1 := by
            simpa using h
          cases rest with
          | nil =>
            unfold ArgParser.parseTokens at h2
            injection h2 with h3
            subst h3
            simp only [List.nil_append]
            rw [step_next_false_indep hstep more.head?]
            rfl
          | cons r rs =>
            simp only [List.cons_append, List.head?_cons] at hstep ⊢
            rw [hstep]
            have hlen2 : (r :: rs).length ≤ n := by
              simp only [List.length_cons] at hlen ⊢
              omega
            exact ihn (r :: rs) p2 p1 hlen2 h2
        | true =>
          cases rest with
          | nil =>
            exact (step_none_not_true hstep).elim
          | cons r rs =>
            have h2 : p2.parseTokens rs = LoopResult.done p1 := by
              simpa using h
            simp only [List.cons_append, List.head?_cons] at hstep ⊢
            rw [hstep]
            have hlen2 : rs.length ≤ n := by
              simp at hlen
              omega
            exact ihn rs p2 p1 hlen2 h2

/-- Loop composition: a token list the loop finishes cleanly is processed
the same way when more tokens follow. -/
theorem parseTokens_append {p p1 : ArgParser} {pre : List String}
    (more : List String) (h : p.parseTokens pre = LoopResult.done p1) :
    p.parseTokens (pre ++ more) = p1.parseTokens more :=
  parseTokens_append_aux more pre.length pre p p1 (Nat.le_refl _) h

/-! Section: Evaluation lemmas for option tokens -/

/-- Searching for an absent character finds nothing. -/
theorem charFindIdx_not_mem (l : List Char) (c : Char) (h : c ∉ l) :
    charFindIdx l c = none := by
  induction l with
  | nil => rfl
  | cons a rest ih =>
    simp only [List.mem_cons, not_or] at h
    unfold charFindIdx
    rw [if_neg (fun hh => h.1 hh.symm)]
    rw [ih h.2]
    rfl

/-- The first occurrence of a character absent from the left part of an
append is at the index right after that left part. -/
theorem charFindIdx_append_right (l r : List Char) (c : Char) (h : c ∉ l) :
    charFindIdx (l ++ c :: r) c = some l.length := by
  induction l with
  | nil => simp [charFindIdx]
  | cons a rest ih =>
    simp only [List.mem_cons, not_or] at h
    simp only [List.cons_append]
    unfold charFindIdx
    rw [if_neg (fun hh => h.1 hh.symm)]
    rw [ih h.2]
    rfl

/-- Evaluation of parseLongOption on an equals-form token naming a
non-flag argument: it resolves to setValue on the inline value, mutating
the indexed argument, consuming no following token. -/
theorem parseLongOption_eqform (p : ArgParser) (nd vd : List Char)
    (i : Nat) (a : Argument) (hnd : '=' ∉ nd)
    (hfind : p.findArgumentIdx (String.mk nd) = some i)
    (ha : p.arguments[i]? = some a) (hty : ¬a.type = ArgumentType.Flag) :
    ∀ nx, p.parseLongOption (String.mk (('-' :: '-' :: nd) ++ '=' :: vd)) nx =
      (match a.setValue (String.mk vd) with
       | Except.error e => Except.error (e, p)
       | Except.ok a2 =>
           Except.ok ({ p with arguments := p.arguments.set i a2 }, false)) := by
  intro nx
  have hmem : '=' ∉ ('-' :: '-' :: nd) := by
    simp only [List.mem_cons, not_or]
    exact ⟨by decide, by decide, hnd⟩
  have hfindeq : charFindIdx (('-' :: '-' :: nd) ++ '=' :: vd) '=' =
      some ('-' :: '-' :: nd).length := charFindIdx_append_right _ _ _ hmem
  have htake : (((('-' :: '-' :: nd) ++ '=' :: vd)).drop 2).take
      (('-' :: '-' :: nd).length - 2) = nd := by
    simp only [List.cons_append, List.drop_succ_cons, List.drop_zero,
      List.length_cons]
    have harith : nd.length + 1 + 1 - 2 = nd.length := by omega
    rw [harith, List.take_left]
  have hdrop : (('-' :: '-' :: nd) ++ '=' :: vd).drop
      (('-' :: '-' :: nd).length + 1) = vd := by
    rw [← List.drop_drop, List.drop_left]
    rfl
  unfold ArgParser.parseLongOption
  simp only []
  rw [hfindeq]
  simp only []
  rw [htake, hdrop, hfind]
  simp only [ha]
  rw [if_neg hty]
  rfl

/-- Evaluation of parseLongOption on a plain long token naming a non-flag
argument, with a following token available: it resolves to setValue on
that following token and consumes it. -/
theorem parseLongOption_spaceform (p : ArgParser) (nd : List Char)
    (i : Nat) (a : Argument) (v : String) (hnd : '=' ∉ nd)
    (hfind : p.findArgumentIdx (String.mk nd) = some i)
    (ha : p.arguments[i]? = some a) (hty : ¬a.type = ArgumentType.Flag) :
    p.parseLongOption (String.mk ('-' :: '-' :: nd)) (some v) =
      (match a.setValue v with
       | Except.error e => Except.error (e, p)
       | Except.ok a2 =>
           Except.ok ({ p with arguments := p.arguments.set i a2 }, true)) := by
  have hmem : '=' ∉ ('-' :: '-' :: nd) := by
    simp only [List.mem_cons, not_or]
    exact ⟨by decide, by decide, hnd⟩
  have hnone : charFindIdx ('-' :: '-' :: nd) '=' = none :=
    charFindIdx_not_mem _ _ hmem
  unfold ArgParser.parseLongOption
  simp only []
  rw [hnone]
  simp only [List.drop_succ_cons, List.drop_zero]
  rw [hfind]
  simp only [ha]
  rw [if_neg hty]
  rfl

/-- Evaluation of parseShortOption on an attached-value token naming a
non-flag argument: the one-character name is looked up, the rest of the
token is the value, no following token is consumed. -/
theorem parseShortOption_attached (p : ArgParser) (c : Char)
    (sd : List Char) (j : Nat) (b : Argument) (hsd : sd ≠ [])
    (hfind2 : p.findArgumentIdx (String.mk [c]) = some j)
    (hb : p.arguments[j]? = some b) (htyb : ¬b.type = ArgumentType.Flag) :
    ∀ nx, p.parseShortOption (String.mk ('-' :: c :: sd)) nx =
      (match b.setValue (String.mk sd) with
       | Except.error e => Except.error (e, p)
       | Except.ok b2 =>
           Except.ok ({ p with arguments := p.arguments.set j b2 }, false)) := by
  intro nx
  unfold ArgParser.parseShortOption
  simp only [List.drop_succ_cons, List.drop_zero, List.take_succ_cons,
    List.take_zero]
  rw [hfind2]
  simp only [hb]
  rw [if_neg htyb]
  rw [if_pos (by
    simp only [List.length_cons]
    have := List.length_pos.mpr hsd
    omega)]

/-- Evaluation of parseShortOption on a bare short token naming a
non-flag argument, with a following token available: it resolves to
setValue on that following token and consumes it. -/
theorem parseShortOption_space (p : ArgParser) (c : Char) (j : Nat)
    (b : Argument) (v : String)
    (hfind2 : p.findArgumentIdx (String.mk [c]) = some j)
    (hb : p.arguments[j]? = some b) (htyb : ¬b.type = ArgumentType.Flag) :
    p.parseShortOption (String.mk ['-', c]) (some v) =
      (match b.setValue v with
       | Except.error e => Except.error (e, p)
       | Except.ok b2 =>
           Except.ok ({ p with arguments := p.arguments.set j b2 }, true)) := by
  unfold ArgParser.parseShortOption
  simp only [List.drop_succ_cons, List.drop_zero, List.take_succ_cons,
    List.take_zero]
  rw [hfind2]
  simp only [hb]
  rw [if_neg htyb]
  rw [if_neg (by simp)]

/-- The loop iteration on a non-help token starting with two dashes is
the long-option path. -/
theorem step_long_glue (p : ArgParser) (arg : String) (nx : Option String)
    (hn1 : arg ≠ "--help") (hn2 : arg ≠ "-h")
    (hpre : List.isPrefixOf ['-', '-'] arg.data = true) :
    p.step arg nx =
      (match p.parseLongOption arg nx with
       | Except.error (e, p2) => StepResult.fail e p2
       | Except.ok (p2, b) => StepResult.next p2 b) := by
  unfold ArgParser.step
  rw [if_neg (by simp [hn1, hn2])]
  rw [if_pos hpre]

/-- The loop iteration on a non-help multi-character token starting with
a single dash is the short-option path. -/
theorem step_short_glue (p : ArgParser) (arg : String) (nx : Option String)
    (hn1 : arg ≠ "--help") (hn2 : arg ≠ "-h")
    (hpre : List.isPrefixOf ['-', '-'] arg.data = false)
    (hpre1 : List.isPrefixOf ['-'] arg.data = true)
    (hlen : arg.data.length > 1) :
    p.step arg nx =
      (match p.parseShortOption arg nx with
       | Except.error (e, p2) => StepResult.fail e p2
       | Except.ok (p2, b) => StepResult.next p2 b) := by
  unfold ArgParser.step
  rw [if_neg (by simp [hn1, hn2])]
  rw [hpre]
  simp only [Bool.false_eq_true, if_false]
  rw [if_pos ⟨hpre1, hlen⟩]

/-! Section: Claim C7: no rollback on a failing parse -/

/-- C7: the parse performs no rollback.  When the loop finishes a prefix
cleanly in state p1 and the next token fails with any error, the whole
parse aborts with exactly the state p1 reached before the failing token,
so every argument set by an earlier token is still set with its stored
value when the error propagates. -/
theorem no_rollback_on_error (p p1 p2 : ArgParser) (pre rest : List String)
    (tok : String) (e : ArgError)
    (h1 : p.parseTokens pre = LoopResult.done p1)
    (h2 : p1.step tok rest.head? = StepResult.fail e p2) :
    p.parseTokens (pre ++ tok :: rest) = LoopResult.err e p1 ∧
    p2 = p1 ∧
    (∀ (i : Nat) (a : Argument), p1.arguments[i]? = some a → a.isSet = true →
      ∃ p3, p.parseTokens (pre ++ tok :: rest) = LoopResult.err e p3 ∧
        p3.arguments[i]? = some a) := by
  have hp2 : p2 = p1 := step_fail_state h2
  subst hp2
  have hmain : p.parseTokens (pre ++ tok :: rest) = LoopResult.err e p2 := by
    rw [parseTokens_append (tok :: rest) h1]
    conv_lhs => rw [ArgParser.parseTokens]
    rw [h2]
  exact ⟨hmain, rfl, fun i a ha _ => ⟨p2, hmain, ha⟩⟩

/-- A parser with one Option, names o and output, for the C7 witness. -/
def c7Parser : ArgParser := ArgParser.empty.addOption "o" "output" "" ""

/-- The C7 witness parser after its option is bound to the value x. -/
def c7After : ArgParser :=
  { c7Parser with arguments := [bindValue (Argument.mkOption "o" "output" "" "") "x"] }

/-- Witness for C7: the option set by the first two tokens is still set,
with its value, in the state the unknown-token error carries. -/
theorem no_rollback_on_error_witness :
    c7Parser.parseTokens ["--output", "x", "--bogus"] =
      LoopResult.err (ArgError.unknownArgumentError "--bogus") c7After ∧
    c7After.arguments[0]? = some (bindValue (Argument.mkOption "o" "output" "" "") "x") := by
  have h := no_rollback_on_error c7Parser c7After c7After ["--output", "x"] []
    "--bogus" (ArgError.unknownArgumentError "--bogus") rfl rfl
  exact ⟨h.1, rfl⟩

/-! Section: Claim C1: the help token short-circuits the parse -/

/-- C1 (amended): whenever the scanner's cursor is on the token -h or
--help, the parse emits help and terminates the process successfully,
short-circuiting all further token processing and the required-argument
validation pass, whatever the remaining tokens and the registry state;
this holds at the start of the stream and after any cleanly processed
prefix.  (A help token consumed as an option value, or never reached
because an earlier token raised an error, does not trigger help.) -/
theorem help_token_at_cursor (p : ArgParser) (tok : String)
    (rest : List String) (h : tok = "-h" ∨ tok = "--help") :
    p.parseTokens (tok :: rest) = LoopResult.help p ∧
    p.parsePositionalOption (tok :: rest) = ParseResult.helpExit p ∧
    (∀ (pre : List String) (p1 : ArgParser),
      p.parseTokens pre = LoopResult.done p1 →
      p.parsePositionalOption (pre ++ tok :: rest) = ParseResult.helpExit p1) := by
  have hstep : ∀ (q : ArgParser) (nx : Option String),
      q.step tok nx = StepResult.helpStop q := by
    intro q nx
    unfold ArgParser.step
    rw [if_pos (h.elim (fun h1 => Or.inr h1) (fun h2 => Or.inl h2))]
  have hloop : ∀ q : ArgParser, q.parseTokens (tok :: rest) = LoopResult.help q := by
    intro q
    rw [ArgParser.parseTokens]
    rw [hstep q rest.head?]
  refine ⟨hloop p, ?_, ?_⟩
  · unfold ArgParser.parsePositionalOption
    rw [hloop p]
  · intro pre p1 hpre
    unfold ArgParser.parsePositionalOption
    rw [parseTokens_append (tok :: rest) hpre, hloop p1]

/-- Witness for C1 (amended): help token first in the stream. -/
theorem help_token_at_cursor_witness :
    ArgParser.empty.parseTokens ["-h", "xyz"] = LoopResult.help ArgParser.empty ∧
    ArgParser.empty.parsePositionalOption ["-h", "xyz"] =
      ParseResult.helpExit ArgParser.empty := by
  have h := help_token_at_cursor ArgParser.empty "-h" ["xyz"] (Or.inl rfl)
  exact ⟨h.1, h.2.1⟩

/-- A parser with one Option, names o and output, for the C1
counterexample. -/
def c1Parser : ArgParser := ArgParser.empty.addOption "o" "output" "Output file" ""

/-- The C1 counterexample parser after --output consumes -h as its value. -/
def c1After : ArgParser :=
  { c1Parser with arguments :=
      [bindValue (Argument.mkOption "o" "output" "Output file" "") "-h"] }

/-- Counterexample to C1 as stated: the token stream --output -h contains
-h, yet the parse does not emit help and does not terminate the process;
it completes normally, storing -h as the value of the output option,
because the help check only runs on the token under the cursor and the
option consumed -h as its value. -/
theorem help_token_anywhere_cex :
    (("-h" : String) ∈ (["--output", "-h"] : List String)) ∧
    c1Parser.parsePositionalOption ["--output", "-h"] = ParseResult.ok c1After ∧
    (∀ q : ArgParser,
      c1Parser.parsePositionalOption ["--output", "-h"] ≠ ParseResult.helpExit q) := by
  have h2 : c1Parser.parsePositionalOption ["--output", "-h"] =
      ParseResult.ok c1After := rfl
  refine ⟨by decide, h2, ?_⟩
  intro q hq
  rw [h2] at hq
  exact ParseResult.noConfusion hq

/-! Section: Claim C4: inline value attachment is equivalent to the space form -/

/-- C4: for a registered non-flag argument, the equals-form long token is
processed exactly like the plain long token followed by the value as the
next token, and the attached-value short token exactly like the bare
short token followed by the value: the same value reaches the same
argument through setValue and the parse continues identically on the
remaining tokens.  Side conditions only exclude the reserved help tokens,
a long name containing an equals sign, and a short name that is a dash. -/
theorem inline_value_forms_equiv (p : ArgParser) (nd vd : List Char)
    (i : Nat) (a : Argument) (c : Char) (sd : List Char) (j : Nat)
    (b : Argument) (rest rest2 : List String)
    (hnd : '=' ∉ nd) (hhelp : nd ≠ "help".data)
    (hfind : p.findArgumentIdx (String.mk nd) = some i)
    (ha : p.arguments[i]? = some a) (hty : ¬a.type = ArgumentType.Flag)
    (hc1 : c ≠ '-') (hc2 : c ≠ 'h') (hsd : sd ≠ [])
    (hfind2 : p.findArgumentIdx (String.mk [c]) = some j)
    (hb : p.arguments[j]? = some b) (htyb : ¬b.type = ArgumentType.Flag) :
    p.parseTokens (String.mk (('-' :: '-' :: nd) ++ '=' :: vd) :: rest) =
      p.parseTokens (String.mk ('-' :: '-' :: nd) :: String.mk vd :: rest) ∧
    p.parseTokens (String.mk ('-' :: c :: sd) :: rest2) =
      p.parseTokens (String.mk ['-', c] :: String.mk sd :: rest2) := by
  constructor
  · have hn1 : String.mk (('-' :: '-' :: nd) ++ '=' :: vd) ≠ "--help" := by
      intro h
      have hd := congrArg String.data h
      simp only [] at hd
      have hmem : ('=' : Char) ∈ ('-' :: '-' :: nd) ++ '=' :: vd := by simp
      rw [hd] at hmem
      exact absurd hmem (by decide)
    have hn2 : String.mk (('-' :: '-' :: nd) ++ '=' :: vd) ≠ "-h" := by
      intro h
      have hd := congrArg String.data h
      simp only [] at hd
      have hmem : ('=' : Char) ∈ ('-' :: '-' :: nd) ++ '=' :: vd := by simp
      rw [hd] at hmem
      exact absurd hmem (by decide)
    have hm1 : String.mk ('-' :: '-' :: nd) ≠ "--help" := by
      intro h
      have hd := congrArg String.data h
      simp only [] at hd
      have hd2 : ('-' : Char) :: '-' :: nd = '-' :: '-' :: "help".data :=
        hd.trans (by rfl)
      simp only [List.cons.injEq, true_and] at hd2
      exact hhelp hd2
    have hm2 : String.mk ('-' :: '-' :: nd) ≠ "-h" := by
      intro h
      have hd := congrArg String.data h
      simp only [] at hd
      have hd2 : ('-' : Char) :: '-' :: nd = ['-', 'h'] := hd.trans (by rfl)
      simp at hd2
    have hp1 : List.isPrefixOf ['-', '-']
        (String.mk (('-' :: '-' :: nd) ++ '=' :: vd)).data = true := by
      simp [List.isPrefixOf, List.cons_append]
    have hp2 : List.isPrefixOf ['-', '-']
        (String.mk ('-' :: '-' :: nd)).data = true := by
      simp [List.isPrefixOf]
    conv_lhs => rw [ArgParser.parseTokens]
    conv_rhs => rw [ArgParser.parseTokens]
    rw [step_long_glue p _ _ hn1 hn2 hp1]
    rw [step_long_glue p _ _ hm1 hm2 hp2]
    rw [parseLongOption_eqform p nd vd i a hnd hfind ha hty rest.head?]
    rw [List.head?_cons]
    rw [parseLongOption_spaceform p nd i a (String.mk vd) hnd hfind ha hty]
    cases hsv : a.setValue (String.mk vd) with
    | error e => simp [hsv]
    | ok a2 => simp [hsv]
  · have hn1 : String.mk ('-' :: c :: sd) ≠ "--help" := by
      intro h
      have hd := congrArg String.data h
      simp only [] at hd
      have hd2 : ('-' : Char) :: c :: sd = '-' :: '-' :: "help".data :=
        hd.trans (by rfl)
      simp only [List.cons.injEq, true_and] at hd2
      exact hc1 hd2.1
    have hn2 : String.mk ('-' :: c :: sd) ≠ "-h" := by
      intro h
      have hd := congrArg String.data h
      simp only [] at hd
      have hd2 : ('-' : Char) :: c :: sd = ['-', 'h'] := hd.trans (by rfl)
      simp only [List.cons.injEq, true_and] at hd2
      exact hsd hd2.2
    have hm1 : String.mk ['-', c] ≠ "--help" := by
      intro h
      have hd := congrArg String.data h
      simp only [] at hd
      have hd2 : ('-' : Char) :: c :: [] = '-' :: '-' :: "help".data :=
        hd.trans (by rfl)
      simp only [List.cons.injEq, true_and] at hd2
      exact hc1 hd2.1
    have hm2 : String.mk ['-', c] ≠ "-h" := by
      intro h
      have hd := congrArg String.data h
      simp only [] at hd
      have hd2 : ('-' : Char) :: c :: [] = ['-', 'h'] := hd.trans (by rfl)
      simp only [List.cons.injEq, true_and] at hd2
      exact hc2 hd2.1
    have hp0 : List.isPrefixOf ['-', '-']
        (String.mk ('-' :: c :: sd)).data = false := by
      simp [List.isPrefixOf]
      exact fun hh => hc1 hh.symm
    have hp0m : List.isPrefixOf ['-', '-'] (String.mk ['-', c]).data = false := by
      simp [List.isPrefixOf]
      exact fun hh => hc1 hh.symm
    have hp1 : List.isPrefixOf ['-'] (String.mk ('-' :: c :: sd)).data = true := by
      simp [List.isPrefixOf]
    have hp1m : List.isPrefixOf ['-'] (String.mk ['-', c]).data = true := by
      simp [List.isPrefixOf]
    have hlen : (String.mk ('-' :: c :: sd)).data.length > 1 := by
      simp
    have hlenm : (String.mk ['-', c]).data.length > 1 := by
      simp
    conv_lhs => rw [ArgParser.parseTokens]
    conv_rhs => rw [ArgParser.parseTokens]
    rw [step_short_glue p _ _ hn1 hn2 hp0 hp1 hlen]
    rw [step_short_glue p _ _ hm1 hm2 hp0m hp1m hlenm]
    rw [parseShortOption_attached p c sd j b hsd hfind2 hb htyb rest2.head?]
    rw [List.head?_cons]
    rw [parseShortOption_space p c j b (String.mk sd) hfind2 hb htyb]
    cases hsv : b.setValue (String.mk sd) with
    | error e => simp [hsv]
    | ok b2 => simp [hsv]

/-- A parser with one Option, short name p and long name output, for the
C4 witness. -/
def c4Parser : ArgParser := ArgParser.empty.addOption "p" "output" "" ""

/-- Witness for C4 at concrete tokens: output equals result.txt versus
output then result.txt, and attached 8080 versus separate 8080. -/
theorem inline_value_forms_equiv_witness :
    c4Parser.parseTokens
        [String.mk (('-' :: '-' :: "output".data) ++ '=' :: "result.txt".data)] =
      c4Parser.parseTokens
        [String.mk ('-' :: '-' :: "output".data), String.mk "result.txt".data] ∧
    c4Parser.parseTokens [String.mk ('-' :: 'p' :: "8080".data)] =
      c4Parser.parseTokens [String.mk ['-', 'p'], String.mk "8080".data] := by
  have h := inline_value_forms_equiv c4Parser "output".data "result.txt".data 0
    (Argument.mkOption "p" "output" "" "") 'p' "8080".data 0
    (Argument.mkOption "p" "output" "" "") [] []
    (by decide) (by decide) rfl rfl (by decide) (by decide) (by decide)
    (by decide) rfl rfl (by decide)
  exact h

/-! Section: Claim C2: positional binding is by index in declaration order -/

/-- A successful setValue stores the value and marks the argument set. -/
theorem setValue_ok_eq {a : Argument} {v : String} {a2 : Argument}
    (h : a.setValue v = Except.ok a2) : a2 = bindValue a v := by
  unfold Argument.setValue at h
  split at h
  · simp at h
  · split at h
    · split at h
      · simp at h
      · injection h with h2
        exact h2.symm
    · injection h with h2
      exact h2.symm

/-- Filtering for positionals keeps a positional head. -/
theorem positionalsOf_cons_pos {a : Argument} (l : List Argument)
    (h : a.type = ArgumentType.Positional) :
    positionalsOf (a :: l) = a :: positionalsOf l := by
  simp [positionalsOf, List.filter_cons, h]

/-- Filtering for positionals drops a non-positional head. -/
theorem positionalsOf_cons_neg {a : Argument} (l : List Argument)
    (h : ¬a.type = ArgumentType.Positional) :
    positionalsOf (a :: l) = positionalsOf l := by
  simp [positionalsOf, List.filter_cons, h]

/-- C2: when the positional-binding pass succeeds, the positional
arguments of the result are exactly the declared positionals bound
pairwise, by index, to the collected positional values: the Nth declared
positional receives the Nth value, declared positionals beyond the number
of values are left exactly as they were (hence unset when previously
unset), and values beyond the declared slots bind to no argument. -/
theorem positional_binding_by_index (args : List Argument)
    (vals : List String) (args2 : List Argument)
    (h : assignPositionals args vals = Except.ok args2) :
    positionalsOf args2 =
      List.zipWith bindValue (positionalsOf args) vals
        ++ (positionalsOf args).drop vals.length := by
  induction args generalizing vals args2 with
  | nil =>
    unfold assignPositionals at h
    injection h with h2
    subst h2
    simp [positionalsOf]
  | cons a rest ih =>
    unfold assignPositionals at h
    by_cases hA : a.type = ArgumentType.Positional
    · rw [if_pos hA] at h
      cases vals with
      | nil =>
        simp only [] at h
        cases hres : assignPositionals rest [] with
        | ok rest2 =>
          rw [hres] at h
          injection h with h2
          subst h2
          rw [positionalsOf_cons_pos _ hA, positionalsOf_cons_pos _ hA]
          have := ih [] rest2 hres
          simp at this ⊢
          exact this
        | error pr =>
          rw [hres] at h
          simp at h
      | cons v vs =>
        simp only [] at h
        cases hsv : a.setValue v with
        | error e =>
          rw [hsv] at h
          simp at h
        | ok a2 =>
          rw [hsv] at h
          cases hres : assignPositionals rest vs with
          | ok rest2 =>
            rw [hres] at h
            injection h with h2
            subst h2
            have ha2 : a2 = bindValue a v := setValue_ok_eq hsv
            have ha2ty : a2.type = ArgumentType.Positional := by
              rw [ha2]
              exact hA
            rw [positionalsOf_cons_pos _ ha2ty, positionalsOf_cons_pos _ hA]
            simp only [List.zipWith_cons_cons, List.length_cons,
              List.drop_succ_cons, List.cons_append]
            rw [ha2, ih vs rest2 hres]
          | error pr =>
            rw [hres] at h
            simp at h
    · rw [if_neg hA] at h
      cases hres : assignPositionals rest vals with
      | ok rest2 =>
        rw [hres] at h
        injection h with h2
        subst h2
        rw [positionalsOf_cons_neg _ hA, positionalsOf_cons_neg _ hA]
        exact ih vals rest2 hres
      | error pr =>
        rw [hres] at h
        simp at h

/-- Declarations for the C2 witness: required positional input, a flag,
optional positional out2, optional positional extra. -/
def c2Args : List Argument :=
  [Argument.mkPositional "input" "" true,
   Argument.mkFlag "v" "verbose" "",
   Argument.mkPositional "out2" "" false,
   Argument.mkPositional "extra" "" false]

/-- The C2 witness declarations after binding the two values. -/
def c2ArgsAfter : List Argument :=
  [bindValue (Argument.mkPositional "input" "" true) "a.txt",
   Argument.mkFlag "v" "verbose" "",
   bindValue (Argument.mkPositional "out2" "" false) "b.txt",
   Argument.mkPositional "extra" "" false]

/-- Witness for C2: three declared positionals, two supplied values; the
first two positionals are bound in order and the third stays untouched. -/
theorem positional_binding_by_index_witness :
    positionalsOf c2ArgsAfter =
      List.zipWith bindValue (positionalsOf c2Args) ["a.txt", "b.txt"]
        ++ (positionalsOf c2Args).drop 2 :=
  positional_binding_by_index c2Args ["a.txt", "b.txt"] c2ArgsAfter rfl

/-! Section: Claim C8: parser-level getBool is the set state, not the boolean
conversion -/

/-- C8: for a registered name, ArgParser getBool returns the found
Argument set state: an Option parsed with the string false yields true,
an unset Option with default true yields false — both diverging from the
Argument-level getBool — and an unknown name yields false. -/
theorem parser_getBool_is_isSet (p : ArgParser) (n : String) (a : Argument)
    (hfind : p.findArgument n = some a) (hty : a.type ≠ ArgumentType.Flag) :
    p.getBool n = a.isSet ∧
    (a.isSet = true → a.currentValue = "false" →
      p.getBool n = true ∧ a.getBool = false) ∧
    (a.isSet = false → a.defaultValue = "true" →
      p.getBool n = false ∧ a.getBool = true) ∧
    (∀ (q : ArgParser) (m : String), q.findArgument m = none →
      q.getBool m = false) := by
  have hmain : p.getBool n = a.isSet := by
    unfold ArgParser.getBool
    rw [hfind]
  refine ⟨hmain, ?_, ?_, ?_⟩
  · intro hset hcur
    refine ⟨by rw [hmain, hset], ?_⟩
    unfold Argument.getBool Argument.getBoolOpt Argument.activeValue
    rw [hset, hcur]
    simp [hty]
  · intro hset hdefv
    refine ⟨by rw [hmain, hset], ?_⟩
    unfold Argument.getBool Argument.getBoolOpt Argument.activeValue
    rw [hset, hdefv]
    simp [hty]
    decide
  · intro q m hnone
    unfold ArgParser.getBool
    rw [hnone]

/-- A parser holding one Option whose parsed value is the string false. -/
def c8SetParser : ArgParser :=
  { arguments := [{ Argument.mkOption "x" "xopt" "" "" with
      currentValue := "false", isSet := true }],
    argMap := [("x", 0), ("xopt", 0)],
    positionalValues := [] }

/-- A parser holding one unset Option whose default is the string true. -/
def c8UnsetParser : ArgParser :=
  { arguments := [Argument.mkOption "y" "yopt" "" "true"],
    argMap := [("y", 0), ("yopt", 0)],
    positionalValues := [] }

/-- Witness for C8 on the two divergence scenarios and an unknown name. -/
theorem parser_getBool_is_isSet_witness :
    c8SetParser.getBool "xopt" = true ∧
    ({ Argument.mkOption "x" "xopt" "" "" with
        currentValue := "false", isSet := true } : Argument).getBool = false ∧
    c8UnsetParser.getBool "yopt" = false ∧
    (Argument.mkOption "y" "yopt" "" "true").getBool = true ∧
    c8UnsetParser.getBool "nosuch" = false := by
  have h1 := parser_getBool_is_isSet c8SetParser "xopt"
    ({ Argument.mkOption "x" "xopt" "" "" with
        currentValue := "false", isSet := true }) rfl (by decide)
  have h2 := parser_getBool_is_isSet c8UnsetParser "yopt"
    (Argument.mkOption "y" "yopt" "" "true") rfl (by decide)
  obtain ⟨ha, hb⟩ := h1.2.1 rfl rfl
  obtain ⟨hc, hd⟩ := h2.2.2.1 rfl rfl
  exact ⟨ha, hb, hc, hd, h2.2.2.2 c8UnsetParser "nosuch" rfl⟩

/-! Section: Claim C9: a flag token with an attached suffix sets the flag and
discards the suffix -/

/-- C9: for a registered Flag with one-character short name c, a token of
the dash c suffix form with a non-empty suffix sets the flag and silently
drops the suffix: the step succeeds without error, stores no value, does
not reprocess the suffix characters, and the loop continues with the
remaining tokens unchanged. -/
theorem flag_attached_suffix_ignored (p : ArgParser) (c : Char)
    (sd : List Char) (i : Nat) (a : Argument) (next? : Option String)
    (rest : List String) (hc : c ≠ '-') (hsd : sd ≠ [])
    (hfind : p.findArgumentIdx (String.mk [c]) = some i)
    (ha : p.arguments[i]? = some a) (hty : a.type = ArgumentType.Flag) :
    p.step (String.mk ('-' :: c :: sd)) next? =
      StepResult.next
        { p with arguments := p.arguments.set i { a with isSet := true } } false ∧
    p.parseTokens (String.mk ('-' :: c :: sd) :: rest) =
      ArgParser.parseTokens
        { p with arguments := p.arguments.set i { a with isSet := true } } rest := by
  have hnh1 : String.mk ('-' :: c :: sd) ≠ "--help" := by
    intro h
    have := congrArg String.data h
    simp at this
    exact hc this.1
  have hnh2 : String.mk ('-' :: c :: sd) ≠ "-h" := by
    intro h
    have := congrArg String.data h
    simp at this
    exact hsd this.2
  have hpre : List.isPrefixOf ['-', '-'] (String.mk ('-' :: c :: sd)).data = false := by
    simp [List.isPrefixOf]
    intro h
    exact absurd h.symm hc
  have hshort : ∀ nx : Option String,
      p.parseShortOption (String.mk ('-' :: c :: sd)) nx =
      Except.ok ({ p with arguments := p.arguments.set i { a with isSet := true } }, false) := by
    intro nx
    unfold ArgParser.parseShortOption
    simp only [List.drop_succ_cons, List.drop_zero, List.take_succ_cons, List.take_zero]
    rw [hfind]
    simp only [ha]
    rw [if_pos hty]
    unfold Argument.setFlag
    rw [if_neg (by simp [hty])]
  have hstep : ∀ nx : Option String,
      p.step (String.mk ('-' :: c :: sd)) nx =
      StepResult.next
        { p with arguments := p.arguments.set i { a with isSet := true } } false := by
    intro nx
    unfold ArgParser.step
    rw [if_neg (by simp [hnh1, hnh2])]
    rw [hpre]
    simp only [Bool.false_eq_true, if_false]
    rw [if_pos ⟨by simp [List.isPrefixOf], by simp⟩]
    rw [hshort nx]
  refine ⟨hstep next?, ?_⟩
  conv_lhs => rw [ArgParser.parseTokens]
  rw [hstep rest.head?]
  rfl

/-- A parser with one Flag, short name v. -/
def c9Parser : ArgParser := ArgParser.empty.addFlag "v" "verbose" ""

/-- The flag of c9Parser after being set. -/
def c9FlagSet : Argument := { Argument.mkFlag "v" "verbose" "" with isSet := true }

/-- The parser state c9Parser reaches once its flag is set. -/
def c9ParserSet : ArgParser :=
  { c9Parser with arguments := c9Parser.arguments.set 0 c9FlagSet }

/-- Witness for C9 at the concrete token -vxyz. -/
theorem flag_attached_suffix_ignored_witness :
    c9Parser.step (String.mk ('-' :: 'v' :: ['x', 'y', 'z'])) none =
      StepResult.next c9ParserSet false ∧
    c9Parser.parseTokens [String.mk ('-' :: 'v' :: ['x', 'y', 'z'])] =
      ArgParser.parseTokens c9ParserSet [] :=
  flag_attached_suffix_ignored c9Parser 'v' ['x', 'y', 'z'] 0
    (Argument.mkFlag "v" "verbose" "") none [] (by decide) (by decide)
    rfl rfl rfl

/-! Section: Claim C10: the bare double dash is not an end-of-options separator -/

/-- C10: with no Argument registered under the empty name, the bare
double-dash token is dispatched to the long-option path, whose empty long
name fails lookup, raising UnknownArgumentError that carries the raw
token; the loop aborts there with the parser state unchanged. -/
theorem bare_double_dash_unknown (p : ArgParser) (next? : Option String)
    (rest : List String) (h : p.findArgumentIdx "" = none) :
    p.step "--" next? = StepResult.fail (ArgError.unknownArgumentError "--") p ∧
    p.parseTokens ("--" :: rest) =
      LoopResult.err (ArgError.unknownArgumentError "--") p := by
  have hlong : ∀ nx : Option String, p.parseLongOption "--" nx =
      Except.error (ArgError.unknownArgumentError "--", p) := by
    intro nx
    unfold ArgParser.parseLongOption
    have hfindeq : charFindIdx "--".data '=' = none := by decide
    rw [hfindeq]
    simp only []
    rw [show String.mk ("--".data.drop 2) = "" from rfl]
    rw [h]
  have hstep : ∀ nx : Option String, p.step "--" nx =
      StepResult.fail (ArgError.unknownArgumentError "--") p := by
    intro nx
    unfold ArgParser.step
    rw [if_neg (by decide)]
    rw [if_pos (by decide)]
    rw [hlong nx]
  refine ⟨hstep next?, ?_⟩
  conv_lhs => rw [ArgParser.parseTokens]
  rw [hstep rest.head?]

/-- Witness for C10 on the empty parser. -/
theorem bare_double_dash_unknown_witness :
    ArgParser.empty.step "--" none =
      StepResult.fail (ArgError.unknownArgumentError "--") ArgParser.empty ∧
    ArgParser.empty.parseTokens ["--"] =
      LoopResult.err (ArgError.unknownArgumentError "--") ArgParser.empty :=
  bare_double_dash_unknown ArgParser.empty none [] rfl

end argparser
